import Mathlib

/-!
Verification of the `threadsafe` Go library (files `map.go` and `slice.go`).

The library provides two lock-guarded generic containers:

* `Map[K comparable, V any]` — a `map[K]V` plus a `sync.Mutex`; operations
  `Get`, `Pull`, `Set`, `Delete`, `Keys`, `Values`, `Items`, `Empty`, `Len`.
* `Slice[T any]` — a `[]T` plus a `sync.Mutex`; operations `Append`, `Insert`,
  `SafeInsert`, `Replace`, `SafeReplace`, `Get`, `GetAll`, `SafeGet`, `Delete`,
  `SafeDelete`, `Empty`, `IndexFunc`, `Len`.

Modelling conventions:

* A Go `map[K]V` is an association list without duplicate keys; a Go nil map
  (the zero value of the `Map` struct, i.e. a `Map` not built by `NewMap`) is
  `Option.none` at the struct level.  Reading a nil map yields the zero value
  and `false`; storing into a nil map is a runtime fault, so `Set` returns
  `Option`.
* Go slices are Lean lists; a Go `int` index is a Lean `Int`.  Operations that
  can panic on a bad index (`Insert`, `Replace`, `Get`, `Delete`) return
  `Option`, with `none` for the panic.
* The zero value of a Go type `T` is `default` of an `Inhabited` instance.
* Single-threaded runs of operations whose `Lock`/`Unlock` pairs are properly
  nested are modelled as pure functions (the lock is acquired, the body runs,
  the lock is released).  `Map.Pull` is the one operation that calls another
  public operation (`Delete`) of the same container while already holding the
  container's mutex; since `sync.Mutex` is not reentrant, that inner `Lock`
  blocks forever.  A separate lock-aware model (`MapExecState`, `mapDeleteExec`,
  `mapPullExec`) makes the lock state explicit, with `none` meaning the run
  blocks and never returns.
* Reference (aliasing) behaviour of `Map.Empty` and `Slice.GetAll` is modelled
  with an explicit heap of collections addressed by `Nat` (`MapHeapState`,
  `SliceHeapState`): a struct field holding a map or a slice is an address into
  that heap, assignment repoints the address, and `make` allocates a fresh cell.
-/

namespace Threadsafe

/-- A Go `map[K]V` value: an association list of key/value pairs.  All maps
reachable through the library's operations have no duplicate keys. -/
abbrev GoMap (K V : Type) : Type := List (K × V)

/-- Go map indexing `v, ok := d[k]`: the value at the first (only) occurrence
of `k`, or `none` when `k` is absent. -/
def goLookup {K V : Type} [DecidableEq K] (d : GoMap K V) (k : K) : Option V :=
  match d with
  | [] => none
  | (k', v) :: rest => if k' = k then some v else goLookup rest k

/-- Go map assignment `d[k] = v`: overwrite the existing entry for `k`, or add
a new one. -/
def goStore {K V : Type} [DecidableEq K] (d : GoMap K V) (k : K) (v : V) : GoMap K V :=
  match d with
  | [] => [(k, v)]
  | (k', v') :: rest => if k' = k then (k', v) :: rest else (k', v') :: goStore rest k v

/-- Go builtin `delete(d, k)`: remove the entry for `k` if present. -/
def goDelete {K V : Type} [DecidableEq K] (d : GoMap K V) (k : K) : GoMap K V :=
  match d with
  | [] => []
  | (k', v') :: rest => if k' = k then rest else (k', v') :: goDelete rest k

/-- The `Map[K, V]` struct of `map.go`.  `Data = none` is a nil Go map: the
zero value of the struct, before any `NewMap` call.  The mutex field is not
part of the value state; lock behaviour is modelled by `MapExecState` below. -/
structure Map (K V : Type) where
  Data : Option (GoMap K V)
  deriving DecidableEq

/-- `NewMap` of `map.go`: a `Map` whose `Data` is a freshly made empty map. -/
def NewMap (K V : Type) : Map K V := ⟨some []⟩

/-- `Map.Get` of `map.go`: `v, ok := m.Data[key]`, returning the zero value of
`V` and `false` when the key is absent (also on a nil map). -/
def Map.Get {K V : Type} [DecidableEq K] [Inhabited V] (m : Map K V) (k : K) : V × Bool :=
  match m.Data with
  | none => (default, false)
  | some d =>
    match goLookup d k with
    | some v => (v, true)
    | none => (default, false)

/-- `Map.Set` of `map.go`: `m.Data[key] = value`.  Assigning into a nil map is
a Go runtime fault, modelled as `none`. -/
def Map.Set {K V : Type} [DecidableEq K] (m : Map K V) (k : K) (v : V) : Option (Map K V) :=
  match m.Data with
  | none => none
  | some d => some ⟨some (goStore d k v)⟩

/-- `Map.Delete` of `map.go`: check `_, ok := m.Data[key]` and delete only when
present.  On a nil map the lookup fails and nothing happens. -/
def Map.Delete {K V : Type} [DecidableEq K] (m : Map K V) (k : K) : Map K V :=
  match m.Data with
  | none => m
  | some d => if (goLookup d k).isSome then ⟨some (goDelete d k)⟩ else ⟨some d⟩

/-- `Map.Keys` of `map.go`: the keys, in the range order of the underlying
map (here: list order).  Ranging over a nil map yields nothing. -/
def Map.Keys {K V : Type} (m : Map K V) : List K :=
  (m.Data.getD []).map Prod.fst

/-- `Map.Values` of `map.go`: the values, in range order. -/
def Map.Values {K V : Type} (m : Map K V) : List V :=
  (m.Data.getD []).map Prod.snd

/-- `Map.Items` of `map.go`: keys and values from one range pass, so position
`i` of the two lists forms an entry of the map. -/
def Map.Items {K V : Type} (m : Map K V) : List K × List V :=
  ((m.Data.getD []).map Prod.fst, (m.Data.getD []).map Prod.snd)

/-- `Map.Len` of `map.go`: `len(m.Data)`; a nil map has length 0. -/
def Map.Len {K V : Type} (m : Map K V) : Nat :=
  (m.Data.getD []).length

/-- State of a single-threaded run against one `Map`: whether its `sync.Mutex`
is currently held, and the map contents.  `sync.Mutex` is not reentrant: a
`Lock()` while `locked = true` blocks forever (no other thread will release
it in a single-threaded run). -/
structure MapExecState (K V : Type) where
  locked : Bool
  Data : GoMap K V
  deriving DecidableEq

/-- Lock-aware run of `Map.Delete` (`map.go` lines 53-60): `m.lock.Lock()`,
conditional `delete`, deferred `Unlock`.  Result `none` means the run blocks
forever acquiring the mutex. -/
def mapDeleteExec {K V : Type} [DecidableEq K] (st : MapExecState K V) (k : K) :
    Option (MapExecState K V) :=
  if st.locked then none
  else
    let d' := if (goLookup st.Data k).isSome then goDelete st.Data k else st.Data
    some ⟨false, d'⟩

/-- Lock-aware run of `Map.Pull` (`map.go` lines 30-42): `m.lock.Lock()`, then
`v, ok := m.Data[key]`; when absent return `(v, ok)` (deferred `Unlock`); when
present call `m.Delete(key)` — with the mutex still held — then return.
Result `none` means the run blocks forever. -/
def mapPullExec {K V : Type} [DecidableEq K] [Inhabited V] (st : MapExecState K V) (k : K) :
    Option ((V × Bool) × MapExecState K V) :=
  if st.locked then none
  else
    match goLookup st.Data k with
    | none => some ((default, false), ⟨false, st.Data⟩)
    | some v =>
      match mapDeleteExec ⟨true, st.Data⟩ k with
      | none => none
      | some st' => some ((v, true), ⟨false, st'.Data⟩)

/-- The `Slice[T]` struct of `slice.go`, as a value: the `Data []T` field.
The mutex is elided here (all `Slice` operations pair `Lock` with a deferred
`Unlock` and never nest). -/
structure Slice (T : Type) where
  Data : List T
  deriving DecidableEq

/-- `Slice.Append` of `slice.go`: `s.Data = append(s.Data, v)`. -/
def Slice.Append {T : Type} (s : Slice T) (v : T) : Slice T :=
  ⟨s.Data ++ [v]⟩

/-- `Slice.Insert` of `slice.go` (lines 20-25):
`s.Data = append(s.Data[:index], append([]T\x7bv\x7d, s.Data[index:])...)`.
The slicings panic when `index < 0` or `index > len(s.Data)` (modelled as
`none`; Go may tolerate `index` up to the backing capacity, but the library
never relies on that). -/
def Slice.Insert {T : Type} (s : Slice T) (index : Int) (v : T) : Option (Slice T) :=
  if index < 0 ∨ (s.Data.length : Int) < index then none
  else some ⟨s.Data.take index.toNat ++ v :: s.Data.drop index.toNat⟩

/-- `Slice.SafeInsert` of `slice.go` (lines 27-38): reject `index < 0 ||
index > len(s.Data)` with `false` and no mutation, else insert with shift and
return `true`. -/
def Slice.SafeInsert {T : Type} (s : Slice T) (index : Int) (v : T) : Bool × Slice T :=
  if index < 0 ∨ (s.Data.length : Int) < index then (false, s)
  else (true, ⟨s.Data.take index.toNat ++ v :: s.Data.drop index.toNat⟩)

/-- `Slice.Replace` of `slice.go` (lines 40-45): `s.Data[index] = v`, panicking
(`none`) out of `[0, len)`. -/
def Slice.Replace {T : Type} (s : Slice T) (index : Int) (v : T) : Option (Slice T) :=
  if index < 0 ∨ (s.Data.length : Int) ≤ index then none
  else some ⟨s.Data.set index.toNat v⟩

/-- `Slice.SafeReplace` of `slice.go` (lines 47-58): reject `index < 0 ||
index >= len(s.Data)` with `false` and no mutation, else overwrite in place. -/
def Slice.SafeReplace {T : Type} (s : Slice T) (index : Int) (v : T) : Bool × Slice T :=
  if index < 0 ∨ (s.Data.length : Int) ≤ index then (false, s)
  else (true, ⟨s.Data.set index.toNat v⟩)

/-- `Slice.Get` of `slice.go` (lines 60-65): `s.Data[index]`, panicking
(`none`) out of `[0, len)`.  Within range the `getD` default is never used. -/
def Slice.Get {T : Type} [Inhabited T] (s : Slice T) (index : Int) : Option T :=
  if index < 0 ∨ (s.Data.length : Int) ≤ index then none
  else some (s.Data.getD index.toNat default)

/-- `Slice.SafeGet` of `slice.go` (lines 74-83): bounds check
`index < 0 || index >= len(s.Data)` first, returning `(*new(T), false)` when it
fails, else `(s.Data[index], true)`. -/
def Slice.SafeGet {T : Type} [Inhabited T] (s : Slice T) (index : Int) : T × Bool :=
  if index < 0 ∨ (s.Data.length : Int) ≤ index then (default, false)
  else (s.Data.getD index.toNat default, true)

/-- `Slice.Delete` of `slice.go` (lines 86-91):
`s.Data = append(s.Data[:index], s.Data[index+1:]...)`, panicking (`none`)
out of `[0, len)`. -/
def Slice.Delete {T : Type} (s : Slice T) (index : Int) : Option (Slice T) :=
  if index < 0 ∨ (s.Data.length : Int) ≤ index then none
  else some ⟨s.Data.take index.toNat ++ s.Data.drop (index.toNat + 1)⟩

/-- `Slice.SafeDelete` of `slice.go` (lines 93-103): reject `index < 0 ||
index >= len(s.Data)` with `false` and no mutation, else delete with shift. -/
def Slice.SafeDelete {T : Type} (s : Slice T) (index : Int) : Bool × Slice T :=
  if index < 0 ∨ (s.Data.length : Int) ≤ index then (false, s)
  else (true, ⟨s.Data.take index.toNat ++ s.Data.drop (index.toNat + 1)⟩)

/-- `Slice.Len` of `slice.go`: `len(s.Data)`. -/
def Slice.Len {T : Type} (s : Slice T) : Nat :=
  s.Data.length

/-- Heap model for the aliasing behaviour of `Slice.GetAll`: slice values are
addresses of backing arrays living in `heap`; `ref` is the address held by the
guarded slice's `Data` field. -/
structure SliceHeapState (T : Type) where
  heap : List (List T)
  ref : Nat
  deriving DecidableEq

/-- `Slice.GetAll` of `slice.go` (lines 67-72): `return s.Data` — the field
itself, not a copy, so the caller receives the very address `s.Data` holds. -/
def SliceHeapState.GetAll {T : Type} (s : SliceHeapState T) : Nat :=
  s.ref

/-- A caller writing `xs[i] = v` through a slice value `addr` it holds:
updates position `i` of the backing array at `addr`. -/
def heapWrite {T : Type} (heap : List (List T)) (addr i : Nat) (v : T) : List (List T) :=
  heap.set addr ((heap.getD addr []).set i v)

/-- `Slice.Get` read through the heap model: `s.Data[i]` dereferences the
address in `Data` and indexes the backing array. -/
def SliceHeapState.Get {T : Type} [Inhabited T] (s : SliceHeapState T) (i : Nat) : T :=
  (s.heap.getD s.ref []).getD i default

/-- Heap model for the replacement behaviour of `Map.Empty`: map values are
addresses of map objects living in `heap`; `ref` is the address held by the
`Data` field. -/
structure MapHeapState (K V : Type) where
  heap : List (GoMap K V)
  ref : Nat
  deriving DecidableEq

/-- `Map.Empty` of `map.go` (lines 113-119): `m.Data = nil; m.Data = make(...)`
— the old map object is not touched, `Data` is repointed at a freshly
allocated empty map (placed at the next fresh address). -/
def MapHeapState.Empty {K V : Type} (m : MapHeapState K V) : MapHeapState K V :=
  ⟨m.heap ++ [[]], m.heap.length⟩

/-- `Map.Len` read through the heap model: `len` of the map object `Data`
points at. -/
def MapHeapState.Len {K V : Type} (m : MapHeapState K V) : Nat :=
  (m.heap.getD m.ref []).length

/-- Storing at `k` and then looking up `k` yields the stored value. -/
theorem goLookup_goStore_self {K V : Type} [DecidableEq K] (d : GoMap K V) (k : K) (v : V) :
    goLookup (goStore d k v) k = some v := by
  induction d with
  | nil => simp [goStore, goLookup]
  | cons p rest ih =>
    obtain ⟨k', v'⟩ := p
    by_cases h : k' = k
    · simp [goStore, goLookup, h]
    · simp [goStore, goLookup, h, ih]

/-- C6: for every map state, when a key is not found `Get` returns the zero
value of `V` together with `false`; and after a (successful) `Set(k, v)` a
subsequent `Get(k)` returns `(v, true)`. -/
theorem C6_get_set {K V : Type} [DecidableEq K] [Inhabited V]
    (m m' : Map K V) (k : K) (v : V) :
    ((m.Get k).2 = false → m.Get k = (default, false)) ∧
    (m.Set k v = some m' → m'.Get k = (v, true)) := by
  constructor
  · intro h
    cases hd : m.Data with
    | none => simp [Map.Get, hd]
    | some d =>
      cases hl : goLookup d k with
      | none => simp [Map.Get, hd, hl]
      | some w => simp [Map.Get, hd, hl] at h
  · intro h
    cases hd : m.Data with
    | none => simp [Map.Set, hd] at h
    | some d =>
      simp only [Map.Set, hd, Option.some.injEq] at h
      subst h
      simp [Map.Get, goLookup_goStore_self]

/-- Witness for C6 at concrete inputs. -/
theorem C6_get_set_witness :
    (NewMap Nat Nat).Get 0 = (default, false) ∧
    (Map.mk (some [(0, 5)])).Get 0 = (5, true) :=
  ⟨(C6_get_set (NewMap Nat Nat) (Map.mk (some [(0, 5)])) 0 5).1 rfl,
   (C6_get_set (NewMap Nat Nat) (Map.mk (some [(0, 5)])) 0 5).2 rfl⟩

/-- C1: `SafeGet(index)` returns the zero value of `T` and `false` for every
`index < 0` or `index >= Len()` (and cannot fault — it is a total function of
the state); for every `index` in `[0, Len())` it returns the element at
`index` and `true`. -/
theorem C1_safeGet_bounds {T : Type} [Inhabited T] (s : Slice T) (index : Int) :
    ((index < 0 ∨ (s.Data.length : Int) ≤ index) → s.SafeGet index = (default, false)) ∧
    (∀ i : Nat, index = (i : Int) → i < s.Data.length →
      s.SafeGet index = (s.Data.getD i default, true)) := by
  constructor
  · intro h
    unfold Slice.SafeGet
    rw [if_pos h]
  · intro i hi hlen
    subst hi
    have hcond : ¬((i : Int) < 0 ∨ (s.Data.length : Int) ≤ (i : Int)) := by
      push_neg
      exact ⟨Int.natCast_nonneg i, by exact_mod_cast hlen⟩
    unfold Slice.SafeGet
    rw [if_neg hcond, Int.toNat_ofNat]

/-- Witness for C1 at concrete inputs. -/
theorem C1_safeGet_bounds_witness :
    Slice.SafeGet (⟨[10, 20, 30]⟩ : Slice Nat) (-1) = (default, false) ∧
    Slice.SafeGet (⟨[10, 20, 30]⟩ : Slice Nat) 3 = (default, false) ∧
    Slice.SafeGet (⟨[10, 20, 30]⟩ : Slice Nat) 1 = (20, true) := by
  refine ⟨(C1_safeGet_bounds ⟨[10, 20, 30]⟩ (-1)).1 (Or.inl (by decide)),
    (C1_safeGet_bounds ⟨[10, 20, 30]⟩ 3).1 (Or.inr (by decide)), ?_⟩
  have h := (C1_safeGet_bounds (⟨[10, 20, 30]⟩ : Slice Nat) 1).2 1 rfl (by decide)
  simpa using h

/-- C4: each `Safe*` mutating operation rejects its invalid indices
(`index < 0` for all three, `index > Len()` for `SafeInsert`,
`index >= Len()` for `SafeReplace` and `SafeDelete`) by returning `false`
and leaving the sequence contents unchanged. -/
theorem C4_safe_mutators_reject {T : Type} (s : Slice T) (index : Int) (v : T) :
    ((index < 0 ∨ (s.Data.length : Int) < index) → s.SafeInsert index v = (false, s)) ∧
    ((index < 0 ∨ (s.Data.length : Int) ≤ index) → s.SafeReplace index v = (false, s)) ∧
    ((index < 0 ∨ (s.Data.length : Int) ≤ index) → s.SafeDelete index = (false, s)) := by
  refine ⟨fun h => ?_, fun h => ?_, fun h => ?_⟩
  · unfold Slice.SafeInsert
    rw [if_pos h]
  · unfold Slice.SafeReplace
    rw [if_pos h]
  · unfold Slice.SafeDelete
    rw [if_pos h]

/-- Witness for C4 at concrete inputs. -/
theorem C4_safe_mutators_reject_witness :
    Slice.SafeInsert (⟨[10, 20]⟩ : Slice Nat) (-1) 7 = (false, ⟨[10, 20]⟩) ∧
    Slice.SafeReplace (⟨[10, 20]⟩ : Slice Nat) 2 7 = (false, ⟨[10, 20]⟩) ∧
    Slice.SafeDelete (⟨[10, 20]⟩ : Slice Nat) 5 = (false, ⟨[10, 20]⟩) :=
  ⟨(C4_safe_mutators_reject ⟨[10, 20]⟩ (-1) 7).1 (Or.inl (by decide)),
   (C4_safe_mutators_reject ⟨[10, 20]⟩ 2 7).2.1 (Or.inr (by decide)),
   (C4_safe_mutators_reject ⟨[10, 20]⟩ 5 7).2.2 (Or.inr (by decide))⟩

/-- C10: on the zero value of the `Map` struct (underlying nil map, not built
by `NewMap`) the read operations `Get`, `Len`, `Keys`, `Values`, `Items` all
succeed with empty results, but `Set` faults (assignment to an entry in a nil
map); a map built by `NewMap` accepts `Set`. -/
theorem C10_zero_value_map {K V : Type} [DecidableEq K] [Inhabited V] (k : K) (v : V) :
    (Map.mk (none : Option (GoMap K V))).Get k = (default, false) ∧
    (Map.mk (none : Option (GoMap K V))).Len = 0 ∧
    (Map.mk (none : Option (GoMap K V))).Keys = [] ∧
    (Map.mk (none : Option (GoMap K V))).Values = [] ∧
    (Map.mk (none : Option (GoMap K V))).Items = ([], []) ∧
    (Map.mk (none : Option (GoMap K V))).Set k v = none ∧
    ((NewMap K V).Set k v).isSome = true :=
  ⟨rfl, rfl, rfl, rfl, rfl, rfl, rfl⟩

/-- Indexing `l.take i ++ rest` below the cut point reads from `l`. -/
theorem take_append_getElem_lt {T : Type} (l rest : List T) (i j : Nat)
    (h : i ≤ l.length) (hj : j < i) :
    (l.take i ++ rest)[j]? = l[j]? := by
  have hlen : (l.take i).length = i := by
    rw [List.length_take]
    exact Nat.min_eq_left h
  rw [List.getElem?_append_left (by rw [hlen]; exact hj), List.getElem?_take, if_pos hj]

/-- Indexing `l.take i ++ rest` at or above the cut point reads from `rest`. -/
theorem take_append_getElem_ge {T : Type} (l rest : List T) (i j : Nat)
    (h : i ≤ l.length) (hj : i ≤ j) :
    (l.take i ++ rest)[j]? = rest[j - i]? := by
  have hlen : (l.take i).length = i := by
    rw [List.length_take]
    exact Nat.min_eq_left h
  rw [List.getElem?_append_right (by rw [hlen]; exact hj), hlen]

/-- C3: for every index in `[0, Len()]`, `Insert(index, value)` succeeds and
yields a sequence of length `Len() + 1` in which positions below `index` are
unchanged, position `index` holds the new value, and each element previously
at a position `j ≥ index` now sits at `j + 1` — nothing is overwritten or
lost. -/
theorem C3_insert_shifts_right {T : Type} (s : Slice T) (i : Nat) (v : T)
    (h : i ≤ s.Data.length) :
    ∃ s' : Slice T, s.Insert (i : Int) v = some s' ∧
      s'.Data.length = s.Data.length + 1 ∧
      (∀ j : Nat, j < i → s'.Data[j]? = s.Data[j]?) ∧
      s'.Data[i]? = some v ∧
      (∀ j : Nat, i ≤ j → j < s.Data.length → s'.Data[j + 1]? = s.Data[j]?) := by
  have hcond : ¬((i : Int) < 0 ∨ (s.Data.length : Int) < (i : Int)) := by
    push_neg
    exact ⟨Int.natCast_nonneg i, by exact_mod_cast h⟩
  refine ⟨⟨s.Data.take i ++ v :: s.Data.drop i⟩, ?_, ?_, ?_, ?_, ?_⟩
  · unfold Slice.Insert
    rw [if_neg hcond, Int.toNat_ofNat]
  · simp only [List.length_append, List.length_take, List.length_cons, List.length_drop]
    omega
  · intro j hj
    exact take_append_getElem_lt s.Data _ i j h hj
  · rw [take_append_getElem_ge s.Data _ i i h (le_refl i), Nat.sub_self]
    exact List.getElem?_cons_zero
  · intro j hij hj
    rw [take_append_getElem_ge s.Data _ i (j + 1) h (by omega)]
    have hs : j + 1 - i = (j - i) + 1 := by omega
    rw [hs, List.getElem?_cons_succ, List.getElem?_drop]
    congr 1
    omega

/-- Witness for C3 at concrete inputs. -/
theorem C3_insert_shifts_right_witness :
    (⟨[10, 20, 30]⟩ : Slice Nat).Insert 1 7 = some ⟨[10, 7, 20, 30]⟩ := by
  obtain ⟨s', hs', hlen, hlt, hat, hge⟩ :=
    C3_insert_shifts_right (⟨[10, 20, 30]⟩ : Slice Nat) 1 7 (by decide)
  rw [Nat.cast_one] at hs'
  rw [hs']
  congr 1
  obtain ⟨data⟩ := s'
  congr 1
  have h0 := hlt 0 (by decide)
  have h1 := hat
  have h2 := hge 1 (by decide) (by decide)
  have h3 := hge 2 (by decide) (by decide)
  simp only at h0 h1 h2 h3
  have hl : data.length = 4 := by simpa using hlen
  match data, hl with
  | [a, b, c, d], _ =>
    simp_all

/-- C7: `Delete(index)` at a valid index succeeds and yields a sequence of
length `Len() - 1` in which positions below `index` are unchanged and each
element previously at a position `j > index` now sits at `j - 1`. -/
theorem C7_delete_shifts_left {T : Type} (s : Slice T) (i : Nat)
    (h : i < s.Data.length) :
    ∃ s' : Slice T, s.Delete (i : Int) = some s' ∧
      s'.Data.length = s.Data.length - 1 ∧
      (∀ j : Nat, j < i → s'.Data[j]? = s.Data[j]?) ∧
      (∀ j : Nat, i < j → j < s.Data.length → s'.Data[j - 1]? = s.Data[j]?) := by
  have hcond : ¬((i : Int) < 0 ∨ (s.Data.length : Int) ≤ (i : Int)) := by
    push_neg
    exact ⟨Int.natCast_nonneg i, by exact_mod_cast h⟩
  refine ⟨⟨s.Data.take i ++ s.Data.drop (i + 1)⟩, ?_, ?_, ?_, ?_⟩
  · unfold Slice.Delete
    rw [if_neg hcond, Int.toNat_ofNat]
  · simp only [List.length_append, List.length_take, List.length_drop]
    omega
  · intro j hj
    exact take_append_getElem_lt s.Data _ i j (by omega) hj
  · intro j hij hj
    rw [take_append_getElem_ge s.Data _ i (j - 1) (by omega) (by omega), List.getElem?_drop]
    congr 1
    omega

/-- Witness for C7 at concrete inputs. -/
theorem C7_delete_shifts_left_witness :
    (⟨[10, 20, 30]⟩ : Slice Nat).Delete 1 = some ⟨[10, 30]⟩ := by
  obtain ⟨s', hs', hlen, hlt, hgt⟩ :=
    C7_delete_shifts_left (⟨[10, 20, 30]⟩ : Slice Nat) 1 (by decide)
  rw [Nat.cast_one] at hs'
  rw [hs']
  congr 1
  obtain ⟨data⟩ := s'
  congr 1
  have h0 := hlt 0 (by decide)
  have h2 := hgt 2 (by decide) (by decide)
  simp only at h0 h2
  have hl : data.length = 2 := by simpa using hlen
  match data, hl with
  | [a, b], _ =>
    simp_all

/-- C8: `Empty()` ends with `Len() = 0` and does not mutate the old
underlying collection — it only repoints `Data` at a fresh empty map, so every
map object that existed in the heap before the call (in particular the one
`Data` pointed at, and any externally-escaped reference to it) still holds
exactly its prior entries. -/
theorem C8_empty_replaces {K V : Type} (m : MapHeapState K V) :
    m.Empty.Len = 0 ∧
    (∀ a : Nat, a < m.heap.length → m.Empty.heap[a]? = m.heap[a]?) := by
  constructor
  · unfold MapHeapState.Empty MapHeapState.Len
    simp only [List.getD_eq_getElem?_getD, List.getElem?_concat_length, Option.getD_some,
      List.length_nil]
  · intro a ha
    unfold MapHeapState.Empty
    simp only
    exact List.getElem?_append_left ha

/-- Witness for C8 at concrete inputs. -/
theorem C8_empty_replaces_witness :
    (MapHeapState.Empty (⟨[[(0, 1)]], 0⟩ : MapHeapState Nat Nat)).Len = 0 ∧
    (MapHeapState.Empty (⟨[[(0, 1)]], 0⟩ : MapHeapState Nat Nat)).heap[0]? = some [(0, 1)] := by
  have h := C8_empty_replaces (⟨[[(0, 1)]], 0⟩ : MapHeapState Nat Nat)
  refine ⟨h.1, ?_⟩
  rw [h.2 0 (by decide)]
  decide

/-- C9: `GetAll` hands back the `Data` field itself — the same backing array
address — so writing position `i` through the returned slice is visible to a
subsequent `Get(i)` on the guarded slice: the read returns the written value,
hence differs from before whenever the written value does. -/
theorem C9_getAll_aliases {T : Type} [Inhabited T] (s : SliceHeapState T) (i : Nat) (v : T)
    (href : s.ref < s.heap.length) (hi : i < (s.heap.getD s.ref []).length) :
    SliceHeapState.Get ⟨heapWrite s.heap s.GetAll i v, s.ref⟩ i = v ∧
    (v ≠ s.Get i → SliceHeapState.Get ⟨heapWrite s.heap s.GetAll i v, s.ref⟩ i ≠ s.Get i) := by
  have hmain : SliceHeapState.Get ⟨heapWrite s.heap s.GetAll i v, s.ref⟩ i = v := by
    unfold SliceHeapState.Get heapWrite SliceHeapState.GetAll
    simp only
    rw [List.getD_eq_getElem?_getD, List.getD_eq_getElem?_getD,
      List.getElem?_set_self href, Option.getD_some,
      List.getElem?_set_self hi, Option.getD_some]
  exact ⟨hmain, fun hne => by rw [hmain]; exact hne⟩

/-- Witness for C9 at concrete inputs. -/
theorem C9_getAll_aliases_witness :
    SliceHeapState.Get
      ⟨heapWrite [[1, 2]] (SliceHeapState.GetAll (⟨[[1, 2]], 0⟩ : SliceHeapState Nat)) 0 9, 0⟩
      0 = 9 ∧
    SliceHeapState.Get
      ⟨heapWrite [[1, 2]] (SliceHeapState.GetAll (⟨[[1, 2]], 0⟩ : SliceHeapState Nat)) 0 9, 0⟩
      0 ≠ SliceHeapState.Get (⟨[[1, 2]], 0⟩ : SliceHeapState Nat) 0 := by
  have h := C9_getAll_aliases (⟨[[1, 2]], 0⟩ : SliceHeapState Nat) 0 9 (by decide) (by decide)
  exact ⟨h.1, h.2 (by decide)⟩

/-- C5: the claim says every operation, `Pull` included, acquires its lock,
runs to completion and returns.  The code violates it: `Pull` holds `m.lock`
(a non-reentrant `sync.Mutex`) when it calls `Delete`, whose own `Lock()` then
blocks forever, so `Pull` on any present key never returns. -/
theorem C5_pull_never_returns {K V : Type} [DecidableEq K] [Inhabited V]
    (d : GoMap K V) (k : K) (v : V) (h : goLookup d k = some v) :
    mapPullExec ⟨false, d⟩ k = none := by
  simp [mapPullExec, mapDeleteExec, h]

/-- Witness for C5 at concrete inputs. -/
theorem C5_pull_never_returns_witness :
    goLookup ([(0, 7)] : GoMap Nat Nat) 0 = some 7 ∧
    mapPullExec (⟨false, [(0, 7)]⟩ : MapExecState Nat Nat) 0 = none :=
  ⟨rfl, C5_pull_never_returns [(0, 7)] 0 7 rfl⟩

/-- C2: the claim says `Pull(K)` on a present key returns `(v, true)` and
removes `K`, and on an absent key returns `(zero, false)` leaving the map
unchanged.  The code satisfies only the absent half: on a present key the
inner `Delete` blocks forever on the mutex `Pull` already holds, so `Pull`
never returns at all (evaluated here at the failing input `\x7b0 ↦ 7\x7d`,
key `0`, and at the conforming absent input `\x7b1 ↦ 5\x7d`, key `0`). -/
theorem C2_pull_present_deadlock :
    mapPullExec (⟨false, [(0, 7)]⟩ : MapExecState Nat Nat) 0 = none ∧
    mapPullExec (⟨false, [(1, 5)]⟩ : MapExecState Nat Nat) 0 =
      some ((0, false), ⟨false, [(1, 5)]⟩) := by
  exact ⟨by decide, by decide⟩

end Threadsafe
